import Mathlib

/-!
Shallow embedding of the usernet manifest engine (`src/manifest/manifest.go`).

Modelling conventions:
* `json.RawMessage` byte slices are modelled as `Json` trees (a byte string and
  the Json value it parses to are identified; two outputs produced by
  `json.Marshal` of Go maps are byte-identical iff they are equal as `Json`
  values, because `json.Marshal` sorts map keys and prints canonically).
* Go's `map[string]json.RawMessage` fields of a manifest are modelled as
  association lists carrying an iteration order; a Go map corresponds to such a
  list up to permutation, and one `range` loop over the map corresponds to one
  choice of order.
* `map[string]interface{}` values produced by `json.Unmarshal` inside the merge
  are modelled canonically as key-sorted association lists (`goMapOf`), which
  makes the model of `json.Marshal` (sorted keys, duplicates collapsed to the
  last occurrence) the identity on merge results.
* Strings are compared bytewise in Go; the claims only involve ASCII, where
  Lean's character order coincides with Go's byte order.  `ltChars` mirrors it.
* Numbers in the claim documents are integers, so `Json.num` carries an `Int`;
  float formatting is irrelevant to every claim.
* File I/O: the backing directory is a `Disk` mapping a path to either a record
  that parses to a manifest (`Except.ok`) or an unreadable/malformed record
  (`Except.error`); an absent path models `os.IsNotExist`.  The outcome of
  `os.WriteFile` (and of `json.MarshalIndent`, which can only fail on invalid
  raw bytes, unrepresentable here) is the `writeOk` parameter of
  `UpdateManifest`.
* Template compilation/execution (`html/template`) is external library code and
  is abstracted as a `render` oracle; the `compiled` cache field only affects
  performance, never the returned body, and is dropped.  The write of
  `ctx.PreferredType` is introspection-only and is dropped likewise.
-/

namespace Usernet

/-- A JSON document tree: the model of `json.RawMessage` / `interface{}`. -/
inductive Json where
  | null
  | bool (b : Bool)
  | num (n : Int)
  | str (s : String)
  | arr (elems : List Json)
  | obj (fields : List (String × Json))

/-- Canonical textual form of a document: the model of `json.Marshal` output
and of Go's `string(rawResponse)` cast on the modelled bytes.  The claim
documents contain no characters that `encoding/json` would escape. -/
def Json.serialize : Json → String
  | .null => "null"
  | .bool true => "true"
  | .bool false => "false"
  | .num n => toString n
  | .str s => "\"" ++ s ++ "\""
  | .arr elems => "[" ++ String.intercalate "," (elems.attach.map (fun e => Json.serialize e.1)) ++ "]"
  | .obj fields =>
      "\x7b" ++ String.intercalate ","
        (fields.attach.map (fun f => "\"" ++ f.1.1 ++ "\":" ++ Json.serialize f.1.2)) ++ "\x7d"
decreasing_by
  · have := List.sizeOf_lt_of_mem e.2
    simp at *
    omega
  · have := List.sizeOf_lt_of_mem f.2
    rcases f with ⟨⟨k, v⟩, hf⟩
    simp at *
    omega

/-- First-some choice on options (used to state shallow-merge lookups). -/
def orF {β : Type} (a b : Option β) : Option β :=
  match a with
  | some v => some v
  | none => b

/-- Association-list lookup by key: the model of Go map indexing `m[k]`
(and, on the store's cache list, of first-writer-shadowing inserts). -/
def lookupS {β : Type} (k : String) : List (String × β) → Option β
  | [] => none
  | (k', v) :: rest => if k = k' then some v else lookupS k rest

/-- Bytewise lexicographic comparison of character lists: Go's `<` on the
underlying bytes of (ASCII) strings, as used by `json.Marshal` key sorting. -/
def ltChars : List Char → List Char → Bool
  | [], [] => false
  | [], _ :: _ => true
  | _ :: _, [] => false
  | a :: as, b :: bs => if a < b then true else if b < a then false else ltChars as bs

/-- Bytewise string comparison (Go `<` on strings). -/
def ltS (a b : String) : Bool := ltChars a.data b.data

/-- Insert a binding into a key-sorted association list, replacing an equal
key: one assignment `m[k] = v` on the canonical form of a Go map. -/
def insertSorted (k : String) (v : Json) : List (String × Json) → List (String × Json)
  | [] => [(k, v)]
  | (k', v') :: rest =>
    if ltS k k' then (k, v) :: (k', v') :: rest
    else if k = k' then (k, v) :: rest
    else (k', v') :: insertSorted k v rest

/-- Canonical form of the Go map produced by `json.Unmarshal` of an object:
bindings entered left to right, later duplicates overwriting, keys sorted the
way `json.Marshal` will print them. -/
def goMapOf (fields : List (String × Json)) : List (String × Json) :=
  fields.foldl (fun acc kv => insertSorted kv.1 kv.2 acc) []

/-- `mergeResponses` (manifest.go:276-293): unmarshal both documents into Go
maps (failing unless both are JSON objects), write every override binding into
the default map, and marshal the result back (sorted keys). -/
def mergeResponses (defaultResp overrideResp : Json) : Except String Json :=
  match defaultResp, overrideResp with
  | Json.obj defaultFields, Json.obj overrideFields =>
      Except.ok (Json.obj ((goMapOf overrideFields).foldl
        (fun acc kv => insertSorted kv.1 kv.2 acc) (goMapOf defaultFields)))
  | _, _ => Except.error "json: cannot unmarshal value into map"

/-- Whether the character list starts with the given pattern. -/
def startsWithChars : List Char → List Char → Bool
  | _, [] => true
  | [], _ :: _ => false
  | c :: cs, p :: ps => (c == p) && startsWithChars cs ps

/-- Substring search over character lists. -/
def containsChars (pat : List Char) : List Char → Bool
  | [] => startsWithChars [] pat
  | c :: cs => startsWithChars (c :: cs) pat || containsChars pat cs

/-- Go `strings.Contains(s, substr)`. -/
def goContains (s substr : String) : Bool := containsChars substr.data s.data

/-- One template entry (manifest.go:14-19); the private `compiled` cache field
is a performance cache and is not part of the observable data model. -/
structure ResponseTemplate where
  ContentType : String
  Template : String
  TemplateFile : String

/-- `ServiceManifest` (manifest.go:22-27).  The two Go maps are carried with an
iteration order, see the module comment. -/
structure ServiceManifest where
  DefaultResponse : Json
  UserAgentCases : List (String × Json)
  CountryCases : List (String × Json)
  Templates : List ResponseTemplate

/-- `RequestContext` (manifest.go:30-36). -/
structure RequestContext where
  UserAgent : String
  AcceptTypes : List String
  Headers : List (String × List String)
  PreferredType : String
  Country : String

/-- The user-agent loop of `matchRequestContext` (manifest.go:259-269): walk
the cases in iteration order, merge the first whose pattern is contained in
the user agent, and stop (`break`). -/
def scanUACases (response : Json) (ua : String) : List (String × Json) → Except String Json
  | [] => Except.ok response
  | (pat, ov) :: rest =>
      if goContains ua pat then mergeResponses response ov
      else scanUACases response ua rest

/-- The country step of `matchRequestContext` (manifest.go:243-255): the
accumulator after starting from the default response and merging the country
case when the country is set and present. -/
def localeStep (manifest : ServiceManifest) (ctx : RequestContext) : Except String Json :=
  if ctx.Country ≠ "" then
    match lookupS ctx.Country manifest.CountryCases with
    | some countryResponse => mergeResponses manifest.DefaultResponse countryResponse
    | none => Except.ok manifest.DefaultResponse
  else Except.ok manifest.DefaultResponse

/-- `matchRequestContext` (manifest.go:241-273): the country step, then the
user-agent loop when the user agent is non-empty; merge failures abort. -/
def matchRequestContext (manifest : ServiceManifest) (ctx : RequestContext) : Except String Json :=
  match localeStep manifest ctx with
  | Except.error e => Except.error e
  | Except.ok response =>
      if ctx.UserAgent ≠ "" then scanUACases response ctx.UserAgent manifest.UserAgentCases
      else Except.ok response

/-- The loop of `determineResponseType` (manifest.go:117-127): per accepted
token, in list order, check html, then plain, then json containment. -/
def scanAccept : List String → String
  | [] => "application/json"
  | typ :: rest =>
      if goContains typ "text/html" then "text/html"
      else if goContains typ "text/plain" then "text/plain"
      else if goContains typ "application/json" then "application/json"
      else scanAccept rest

/-- `determineResponseType` (manifest.go:110-130). -/
def determineResponseType (accept : List String) : String :=
  if accept.length = 0 then "application/json" else scanAccept accept

/-- The body returned by `GetResponseForRequest`: raw structured data for the
JSON branch (Go returns the `json.RawMessage` itself), a string otherwise. -/
inductive ResponseBody where
  | json (v : Json)
  | text (s : String)

/-- The post-load body of `GetResponseForRequest` (manifest.go:149-237):
negotiate a type, resolve the document, return it raw for JSON, otherwise
render with the first template of matching content type (compilation and
execution abstracted as `render`), and with no matching template fall back to
the plain-text stringification labelled `text/plain`. -/
def respondWith (manifest : ServiceManifest) (ctx : RequestContext)
    (render : ResponseTemplate → Json → Except String String) :
    Except String (ResponseBody × String) :=
  match matchRequestContext manifest ctx with
  | Except.error e => Except.error e
  | Except.ok rawResponse =>
      if determineResponseType ctx.AcceptTypes = "application/json" then
        Except.ok (ResponseBody.json rawResponse, determineResponseType ctx.AcceptTypes)
      else
        match manifest.Templates.find?
            (fun tmpl => tmpl.ContentType == determineResponseType ctx.AcceptTypes) with
        | some tmpl =>
            match render tmpl rawResponse with
            | Except.error e => Except.error e
            | Except.ok body =>
                Except.ok (ResponseBody.text body, determineResponseType ctx.AcceptTypes)
        | none => Except.ok (ResponseBody.text rawResponse.serialize, "text/plain")

/-- Go `strings.TrimPrefix` on character lists. -/
def trimPre (s p : List Char) : List Char :=
  if startsWithChars s p then s.drop p.length else s

/-- Go `strings.ReplaceAll` for single-character patterns. -/
def replaceAllChar (s : List Char) (a b : Char) : List Char :=
  s.map (fun c => if c = a then b else c)

/-- `sanitizeFilename` (manifest.go:53-59). -/
def sanitizeFilename (serviceURL : String) : String :=
  String.mk (replaceAllChar
    (replaceAllChar (trimPre (trimPre serviceURL.data "https://".data) "http://".data) '/' '_')
    ':' '_')

/-- `filepath.Join` as used here (no cleaning is relevant to the claims). -/
def filepathJoin (dir file : String) : String := dir ++ "/" ++ file

/-- `ManifestManager` (manifest.go:39-43); the lock disappears in the
sequential model, the cache map is an association list shadowed at the head. -/
structure ManifestManager where
  manifests : List (String × ServiceManifest)
  basePath : String

/-- The backing directory: path to record-that-parses or failing record. -/
abbrev Disk := List (String × Except String ServiceManifest)

/-- The manifest synthesized by `LoadManifest` when the record is absent
(manifest.go:77-81). -/
def defaultManifest : ServiceManifest :=
  { DefaultResponse := Json.obj [("message", Json.str "No manifest available for this service")]
    UserAgentCases := []
    CountryCases := []
    Templates := [] }

/-- `LoadManifest` (manifest.go:62-107): cache hit, else read the sanitized
path; absent record returns the synthesized default WITHOUT caching, a failing
read/parse returns the error, a parsed manifest is returned and cached. -/
def LoadManifest (mm : ManifestManager) (disk : Disk) (serviceURL : String) :
    Except String ServiceManifest × ManifestManager :=
  match lookupS serviceURL mm.manifests with
  | some manifest => (Except.ok manifest, mm)
  | none =>
      match lookupS (filepathJoin mm.basePath (sanitizeFilename serviceURL ++ ".json")) disk with
      | none => (Except.ok defaultManifest, mm)
      | some (Except.error e) => (Except.error e, mm)
      | some (Except.ok manifest) =>
          (Except.ok manifest, { mm with manifests := (serviceURL, manifest) :: mm.manifests })

/-- `UpdateManifest` (manifest.go:319-336): persist to the sanitized path, and
only on success overwrite the cache entry; `writeOk` is the marshal/write
outcome of the environment. -/
def UpdateManifest (mm : ManifestManager) (disk : Disk) (writeOk : Bool)
    (serviceURL : String) (manifest : ServiceManifest) :
    Except String Unit × ManifestManager × Disk :=
  if writeOk then
    (Except.ok (),
     { mm with manifests := (serviceURL, manifest) :: mm.manifests },
     (filepathJoin mm.basePath (sanitizeFilename serviceURL ++ ".json"), Except.ok manifest) :: disk)
  else
    (Except.error "write error", mm, disk)

/-- Override document used by the first-match examples. -/
def botOverride1 : Json := Json.obj [("k", Json.num 1)]

/-- Second override document used by the first-match examples. -/
def botOverride2 : Json := Json.obj [("k", Json.num 2)]

/-- Rule set with identity patterns `["bot", "bot2"]` in that order. -/
def botManifest : ServiceManifest :=
  { DefaultResponse := Json.obj []
    UserAgentCases := [("bot", botOverride1), ("bot2", botOverride2)]
    CountryCases := []
    Templates := [] }

/-- The same rule set under the opposite map iteration order. -/
def botManifestRev : ServiceManifest :=
  { botManifest with UserAgentCases := [("bot2", botOverride2), ("bot", botOverride1)] }

/-- Request context whose identity contains both `bot` and `bot2`. -/
def botCtx : RequestContext :=
  { UserAgent := "somebot2crawler", AcceptTypes := [], Headers := [], PreferredType := ""
    Country := "" }

/-- Request context whose identity contains `bot` but not `bot2`. -/
def botCtxSingle : RequestContext := { botCtx with UserAgent := "xbotx" }

/-- Rule set where the default, the locale override and the identity override
all set key `a`, so the application order is observable. -/
def ordManifest : ServiceManifest :=
  { DefaultResponse := Json.obj [("a", Json.num 0)]
    UserAgentCases := [("bot", Json.obj [("a", Json.num 2)])]
    CountryCases := [("US", Json.obj [("a", Json.num 1)])]
    Templates := [] }

/-- Context matching both the locale and the identity override of
`ordManifest`. -/
def ordCtx : RequestContext :=
  { UserAgent := "mybot", AcceptTypes := [], Headers := [], PreferredType := "", Country := "US" }

/-- Context with empty identity and empty locale. -/
def emptyCtx : RequestContext :=
  { UserAgent := "", AcceptTypes := [], Headers := [], PreferredType := "", Country := "" }

/-- Rule set with no configured templates. -/
def plainManifest : ServiceManifest :=
  { DefaultResponse := Json.obj [("a", Json.num 1)]
    UserAgentCases := []
    CountryCases := []
    Templates := [] }

/-- Context negotiating `text/html`. -/
def htmlCtx : RequestContext :=
  { UserAgent := "", AcceptTypes := ["text/html"], Headers := [], PreferredType := ""
    Country := "" }

/-- Render oracle that is never consulted in the fallback scenario. -/
def noRender : ResponseTemplate → Json → Except String String :=
  fun _ _ => Except.error "unused"

/-- Rule set stored behind the colliding names in the sanitization example. -/
def rsEx : ServiceManifest := defaultManifest

/-- A different rule set written through the second colliding name. -/
def rEx : ServiceManifest := { defaultManifest with DefaultResponse := Json.null }

/-- Disk holding the shared record of the two colliding service names. -/
def exDisk : Disk := [("base/x.json", Except.ok rsEx)]

/-! Helper lemmas about the bytewise order. -/

theorem ltChars_irrefl (l : List Char) : ltChars l l = false := by
  induction l with
  | nil => rfl
  | cons a as ih => simp [ltChars, lt_irrefl, ih]

theorem ltChars_trans (l1 : List Char) :
    ∀ l2 l3, ltChars l1 l2 = true → ltChars l2 l3 = true → ltChars l1 l3 = true := by
  induction l1 with
  | nil =>
    intro l2 l3 h12 h23
    cases l2 with
    | nil => simp [ltChars] at h12
    | cons b bs =>
      cases l3 with
      | nil => simp [ltChars] at h23
      | cons c cs => simp [ltChars]
  | cons a as ih =>
    intro l2 l3 h12 h23
    cases l2 with
    | nil => simp [ltChars] at h12
    | cons b bs =>
      cases l3 with
      | nil => simp [ltChars] at h23
      | cons c cs =>
        simp only [ltChars] at h12 h23 ⊢
        by_cases hab : a < b
        · by_cases hbc : b < c
          · simp [lt_trans hab hbc]
          · by_cases hcb : c < b
            · simp [hbc, hcb] at h23
            · have hbceq : b = c := le_antisymm (not_lt.mp hcb) (not_lt.mp hbc)
              subst hbceq
              simp [hab]
        · by_cases hba : b < a
          · simp [hab, hba] at h12
          · have habe : a = b := le_antisymm (not_lt.mp hba) (not_lt.mp hab)
            subst habe
            rw [if_neg hab, if_neg hba] at h12
            by_cases hbc : a < c
            · simp [hbc]
            · by_cases hcb : c < a
              · simp [hbc, hcb] at h23
              · have hce : a = c := le_antisymm (not_lt.mp hcb) (not_lt.mp hbc)
                subst hce
                rw [if_neg hbc, if_neg hcb] at h23 ⊢
                exact ih bs cs h12 h23

theorem ltChars_eq_of_both_not (l1 : List Char) :
    ∀ l2, ltChars l1 l2 = false → ltChars l2 l1 = false → l1 = l2 := by
  induction l1 with
  | nil =>
    intro l2 h12 _
    cases l2 with
    | nil => rfl
    | cons b bs => simp [ltChars] at h12
  | cons a as ih =>
    intro l2 h12 h21
    cases l2 with
    | nil => simp [ltChars] at h21
    | cons b bs =>
      simp only [ltChars] at h12 h21
      by_cases hab : a < b
      · simp [hab] at h12
      · by_cases hba : b < a
        · simp [hab, hba] at h21
        · have habe : a = b := le_antisymm (not_lt.mp hba) (not_lt.mp hab)
          subst habe
          rw [if_neg hab, if_neg hab] at h12 h21
          rw [ih bs h12 h21]

theorem string_eq_of_data_eq (a b : String) (h : a.data = b.data) : a = b :=
  congrArg String.mk h

theorem ltS_irrefl (s : String) : ltS s s = false := ltChars_irrefl s.data

theorem ltS_trans (a b c : String) (h1 : ltS a b = true) (h2 : ltS b c = true) :
    ltS a c = true :=
  ltChars_trans a.data b.data c.data h1 h2

theorem ltS_ne (a b : String) (h : ltS a b = true) : a ≠ b := by
  intro he
  subst he
  rw [ltS_irrefl] at h
  cases h

theorem ltS_true_of_not_of_ne (a b : String) (h : ¬ ltS a b = true) (hne : a ≠ b) :
    ltS b a = true := by
  cases hba : ltS b a with
  | true => rfl
  | false =>
    have hab : ltS a b = false := by
      cases hx : ltS a b with
      | false => rfl
      | true => exact absurd hx h
    exact absurd (string_eq_of_data_eq a b (ltChars_eq_of_both_not a.data b.data hab hba)) hne

/-! Helper lemmas about sorted insertion and lookup. -/

theorem mem_insertSorted (x : String × Json) (k : String) (v : Json)
    (m : List (String × Json)) (hx : x ∈ insertSorted k v m) : x = (k, v) ∨ x ∈ m := by
  induction m with
  | nil => simpa [insertSorted] using hx
  | cons kv rest ih =>
    obtain ⟨k', v'⟩ := kv
    simp only [insertSorted] at hx
    by_cases h1 : ltS k k' = true
    · rw [if_pos h1] at hx
      rcases List.mem_cons.mp hx with he | hr
      · exact Or.inl he
      · exact Or.inr hr
    · rw [if_neg h1] at hx
      by_cases h2 : k = k'
      · rw [if_pos h2] at hx
        rcases List.mem_cons.mp hx with he | hr
        · exact Or.inl he
        · exact Or.inr (List.mem_cons_of_mem _ hr)
      · rw [if_neg h2] at hx
        rcases List.mem_cons.mp hx with he | hr
        · exact Or.inr (he ▸ List.mem_cons_self _ _)
        · rcases ih hr with hkv | hm
          · exact Or.inl hkv
          · exact Or.inr (List.mem_cons_of_mem _ hm)

theorem pairwise_insertSorted (k : String) (v : Json) (m : List (String × Json))
    (hm : m.Pairwise (fun a b => ltS a.1 b.1 = true)) :
    (insertSorted k v m).Pairwise (fun a b => ltS a.1 b.1 = true) := by
  induction m with
  | nil => simp [insertSorted]
  | cons kv rest ih =>
    obtain ⟨k', v'⟩ := kv
    rw [List.pairwise_cons] at hm
    obtain ⟨hhead, hrest⟩ := hm
    simp only [insertSorted]
    by_cases h1 : ltS k k' = true
    · rw [if_pos h1, List.pairwise_cons]
      constructor
      · intro x hx
        rcases List.mem_cons.mp hx with he | hr
        · rw [he]
          exact h1
        · exact ltS_trans _ _ _ h1 (hhead x hr)
      · rw [List.pairwise_cons]
        exact ⟨hhead, hrest⟩
    · rw [if_neg h1]
      by_cases h2 : k = k'
      · rw [if_pos h2, List.pairwise_cons]
        constructor
        · intro x hx
          rw [h2]
          exact hhead x hx
        · exact hrest
      · rw [if_neg h2, List.pairwise_cons]
        constructor
        · intro x hx
          rcases mem_insertSorted x k v rest hx with he | hr
          · rw [he]
            exact ltS_true_of_not_of_ne k k' h1 h2
          · exact hhead x hr
        · exact ih hrest

theorem pairwise_goMapOf (l : List (String × Json)) :
    (goMapOf l).Pairwise (fun a b => ltS a.1 b.1 = true) := by
  suffices h : ∀ m : List (String × Json), m.Pairwise (fun a b => ltS a.1 b.1 = true) →
      (l.foldl (fun acc kv => insertSorted kv.1 kv.2 acc) m).Pairwise
        (fun a b => ltS a.1 b.1 = true) by
    exact h [] (by simp)
  induction l with
  | nil =>
    intro m hm
    simpa using hm
  | cons kv rest ih =>
    intro m hm
    simp only [List.foldl_cons]
    exact ih _ (pairwise_insertSorted _ _ _ hm)

theorem nodupKeys_goMapOf (l : List (String × Json)) :
    ((goMapOf l).map Prod.fst).Nodup := by
  show ((goMapOf l).map Prod.fst).Pairwise (· ≠ ·)
  exact List.Pairwise.map Prod.fst (fun a b h => ltS_ne _ _ h) (pairwise_goMapOf l)

theorem lookupS_insertSorted (k k' : String) (v : Json) (m : List (String × Json)) :
    lookupS k' (insertSorted k v m) = if k' = k then some v else lookupS k' m := by
  induction m with
  | nil => simp [insertSorted, lookupS]
  | cons kv rest ih =>
    obtain ⟨k0, v0⟩ := kv
    simp only [insertSorted]
    by_cases h1 : ltS k k0 = true
    · rw [if_pos h1]
      simp [lookupS]
    · rw [if_neg h1]
      by_cases h2 : k = k0
      · rw [if_pos h2]
        by_cases hk : k' = k
        · simp [lookupS, hk]
        · have hk0 : k' ≠ k0 := h2 ▸ hk
          simp [lookupS, hk, hk0]
      · rw [if_neg h2]
        by_cases hk0 : k' = k0
        · subst hk0
          have hk : ¬ k' = k := fun he => h2 he.symm
          simp [lookupS, hk]
        · simp [lookupS, hk0, ih]

theorem lookupS_eq_none_of_not_mem {β : Type} (k : String) (l : List (String × β))
    (h : k ∉ l.map Prod.fst) : lookupS k l = none := by
  induction l with
  | nil => rfl
  | cons kv rest ih =>
    obtain ⟨k0, v0⟩ := kv
    simp only [List.map_cons, List.mem_cons] at h
    push_neg at h
    simp [lookupS, h.1, ih h.2]

theorem lookupS_foldl_insertSorted (l : List (String × Json)) :
    ∀ m : List (String × Json), (l.map Prod.fst).Nodup → ∀ k : String,
      lookupS k (l.foldl (fun acc kv => insertSorted kv.1 kv.2 acc) m)
        = orF (lookupS k l) (lookupS k m) := by
  induction l with
  | nil =>
    intro m _ k
    simp [lookupS, orF]
  | cons kv rest ih =>
    intro m hnd k
    obtain ⟨k0, v0⟩ := kv
    simp only [List.map_cons, List.nodup_cons] at hnd
    obtain ⟨hk0, hnd'⟩ := hnd
    simp only [List.foldl_cons]
    rw [ih (insertSorted k0 v0 m) hnd' k, lookupS_insertSorted]
    by_cases hk : k = k0
    · subst hk
      rw [lookupS_eq_none_of_not_mem k rest hk0]
      simp [lookupS, orF]
    · simp [lookupS, orF, hk]

/-! Helper lemmas about first-match scanning. -/

theorem scanUACases_eq_find? (response : Json) (ua : String) (l : List (String × Json)) :
    scanUACases response ua l =
      match l.find? (fun kv => goContains ua kv.1) with
      | some kv => mergeResponses response kv.2
      | none => Except.ok response := by
  induction l with
  | nil => rfl
  | cons kv rest ih =>
    obtain ⟨pat, ov⟩ := kv
    by_cases h : goContains ua pat = true
    · rw [List.find?_cons_of_pos _ (by simpa using h)]
      simp [scanUACases, h]
    · rw [List.find?_cons_of_neg _ (by simpa using h)]
      simp only [scanUACases]
      rw [if_neg h]
      exact ih

theorem find?_eq_of_perm {α : Type} (p : α → Bool) (l1 l2 : List α)
    (hp : l1.Perm l2) (hc : l1.countP p ≤ 1) : l1.find? p = l2.find? p := by
  cases hfa : l1.find? p with
  | none =>
    have hnone := List.find?_eq_none.mp hfa
    symm
    rw [List.find?_eq_none]
    intro x hx
    exact hnone x (hp.symm.subset hx)
  | some a =>
    have hpa : p a := List.find?_some hfa
    have hal2 : a ∈ l2 := hp.subset (List.mem_of_find?_eq_some hfa)
    cases hfb : l2.find? p with
    | none => exact absurd hpa (List.find?_eq_none.mp hfb a hal2)
    | some b =>
      have hpb : p b := List.find?_some hfb
      have hbl1 : b ∈ l1 := hp.symm.subset (List.mem_of_find?_eq_some hfb)
      have hab : a = b := by
        by_contra hne
        have ha' : a ∈ l1.filter p :=
          List.mem_filter.mpr ⟨List.mem_of_find?_eq_some hfa, hpa⟩
        have hb' : b ∈ l1.filter p := List.mem_filter.mpr ⟨hbl1, hpb⟩
        have hlen : (l1.filter p).length ≤ 1 := by
          rw [← List.countP_eq_length_filter]
          exact hc
        cases hfp : l1.filter p with
        | nil =>
          rw [hfp] at ha'
          exact (List.not_mem_nil a) ha'
        | cons x xs =>
          cases xs with
          | nil =>
            rw [hfp] at ha' hb'
            have ha2 : a = x := by simpa using ha'
            have hb2 : b = x := by simpa using hb'
            exact hne (ha2.trans hb2.symm)
          | cons y ys =>
            rw [hfp] at hlen
            simp only [List.length_cons] at hlen
            omega
      rw [hab]

theorem matchRequestContext_of_ua_empty (m : ServiceManifest) (ctx : RequestContext)
    (h : ctx.UserAgent = "") : matchRequestContext m ctx = localeStep m ctx := by
  unfold matchRequestContext
  rw [h]
  cases hs : localeStep m ctx with
  | error e => rfl
  | ok r => simp

/-- C1: with a non-empty identity, resolution equals the locale-only
accumulator followed by a merge of AT MOST the first user-agent case (in
iteration order) whose pattern is contained in the identity; later matching
cases are never merged. -/
theorem identity_override_first_match (m : ServiceManifest) (ctx : RequestContext)
    (h : ctx.UserAgent ≠ "") :
    matchRequestContext m ctx =
      (matchRequestContext m { ctx with UserAgent := "" }).bind (fun response =>
        match m.UserAgentCases.find? (fun kv => goContains ctx.UserAgent kv.1) with
        | some kv => mergeResponses response kv.2
        | none => Except.ok response) := by
  have hempty : matchRequestContext m { ctx with UserAgent := "" } = localeStep m ctx :=
    matchRequestContext_of_ua_empty m { ctx with UserAgent := "" } rfl
  rw [hempty]
  unfold matchRequestContext
  cases hs : localeStep m ctx with
  | error e => rfl
  | ok r =>
    dsimp only
    rw [if_pos h]
    exact scanUACases_eq_find? r ctx.UserAgent m.UserAgentCases

/-- C1 witness: with patterns `["bot", "bot2"]` in that order and identity
`"somebot2crawler"`, only the `"bot"` override is applied: the result is the
empty default merged with override 1, never override 2. -/
theorem identity_override_first_match_witness :
    botCtx.UserAgent ≠ "" ∧
    matchRequestContext botManifest botCtx = Except.ok (Json.obj [("k", Json.num 1)]) :=
  ⟨by decide, (identity_override_first_match botManifest botCtx (by decide)).trans (by rfl)⟩

/-- C2 counterexample: the two association lists are the SAME Go map (they are
permutations of each other), yet resolving the same context over the two
iteration orders yields different documents, hence different bytes: with both
`"bot"` and `"bot2"` matching, the map's unspecified `range` order decides
which override is merged, so two resolutions of the same (ruleSet, context)
pair need not be byte-identical. -/
theorem resolve_not_run_deterministic :
    botManifest.UserAgentCases.Perm botManifestRev.UserAgentCases
    ∧ matchRequestContext botManifest botCtx ≠ matchRequestContext botManifestRev botCtx := by
  constructor
  · show List.Perm [("bot", botOverride1), ("bot2", botOverride2)]
      [("bot2", botOverride2), ("bot", botOverride1)]
    exact List.Perm.swap _ _ _
  · have h1 : matchRequestContext botManifest botCtx
        = Except.ok (Json.obj [("k", Json.num 1)]) := rfl
    have h2 : matchRequestContext botManifestRev botCtx
        = Except.ok (Json.obj [("k", Json.num 2)]) := rfl
    rw [h1, h2]
    simp

/-- C2 (amended): resolving the same rule set and context is deterministic
whenever at most one identity pattern matches the identity — any two iteration
orders of the user-agent map then produce equal (hence byte-identical)
output. -/
theorem resolve_deterministic_of_unique_match (m1 m2 : ServiceManifest) (ctx : RequestContext)
    (hdef : m1.DefaultResponse = m2.DefaultResponse)
    (hcc : m1.CountryCases = m2.CountryCases)
    (hperm : m1.UserAgentCases.Perm m2.UserAgentCases)
    (hcount : m1.UserAgentCases.countP (fun kv => goContains ctx.UserAgent kv.1) ≤ 1) :
    matchRequestContext m1 ctx = matchRequestContext m2 ctx := by
  have hls : localeStep m1 ctx = localeStep m2 ctx := by
    unfold localeStep
    rw [hdef, hcc]
  unfold matchRequestContext
  rw [hls]
  cases hs : localeStep m2 ctx with
  | error e => rfl
  | ok r =>
    dsimp only
    by_cases hua : ctx.UserAgent ≠ ""
    · rw [if_pos hua, if_pos hua, scanUACases_eq_find?, scanUACases_eq_find?,
        find?_eq_of_perm _ _ _ hperm hcount]
    · rw [if_neg hua, if_neg hua]

/-- C2 witness: with identity `"xbotx"` exactly one pattern matches, and the
two iteration orders of the same map resolve identically. -/
theorem resolve_deterministic_of_unique_match_witness :
    matchRequestContext botManifest botCtxSingle
      = matchRequestContext botManifestRev botCtxSingle :=
  resolve_deterministic_of_unique_match botManifest botManifestRev botCtxSingle rfl rfl
    (by show List.Perm [("bot", botOverride1), ("bot2", botOverride2)]
          [("bot2", botOverride2), ("bot", botOverride1)]
        exact List.Perm.swap _ _ _)
    (by decide)

/-- C3 counterexample: the accept list `["text/plain", "text/html"]` negotiates
to `text/plain`, not `text/html` as the claim states: the code checks the
three substrings PER TOKEN in list order, not across the whole list. -/
theorem negotiate_precedence_counterexample :
    determineResponseType ["text/plain", "text/html"] = "text/plain"
    ∧ determineResponseType ["text/plain", "text/html"] ≠ "text/html" := by
  constructor
  · rfl
  · decide

/-- C3 (amended): the empty list negotiates to `application/json`; otherwise
tokens are scanned in list order and the FIRST token containing any of the
three known types decides, with html beating plain beating json within that
single token; a token containing none of them is skipped; hence
`["text/plain", "text/html"]` negotiates to `text/plain`. -/
theorem negotiate_per_token_precedence :
    determineResponseType [] = "application/json"
    ∧ (∀ typ rest, determineResponseType (typ :: rest) =
        if goContains typ "text/html" then "text/html"
        else if goContains typ "text/plain" then "text/plain"
        else if goContains typ "application/json" then "application/json"
        else determineResponseType rest)
    ∧ determineResponseType ["text/plain", "text/html"] = "text/plain" := by
  refine ⟨rfl, ?_, rfl⟩
  intro typ rest
  cases rest with
  | nil => simp [determineResponseType, scanAccept]
  | cons a l => simp [determineResponseType, scanAccept]

/-- C4: merging an override object onto a base object is shallow and
override-wins: the merged document maps every key to the override's value when
the override (as a Go map) binds the key, and to the base's value otherwise;
in particular base `a:1,b:2` with override `b:3,c:4` merges to `a:1,b:3,c:4`. -/
theorem merge_shallow_override_wins :
    (∀ baseFields ovFields : List (String × Json), ∃ mergedFields : List (String × Json),
        mergeResponses (Json.obj baseFields) (Json.obj ovFields)
          = Except.ok (Json.obj mergedFields)
        ∧ ∀ k, lookupS k mergedFields
            = orF (lookupS k (goMapOf ovFields)) (lookupS k (goMapOf baseFields)))
    ∧ mergeResponses (Json.obj [("a", Json.num 1), ("b", Json.num 2)])
        (Json.obj [("b", Json.num 3), ("c", Json.num 4)])
      = Except.ok (Json.obj [("a", Json.num 1), ("b", Json.num 3), ("c", Json.num 4)]) := by
  constructor
  · intro baseFields ovFields
    refine ⟨_, rfl, ?_⟩
    intro k
    exact lookupS_foldl_insertSorted (goMapOf ovFields) (goMapOf baseFields)
      (nodupKeys_goMapOf ovFields) k
  · rfl

/-- C5: resolving with an empty identity and an empty locale returns exactly
the rule set's default response, unchanged. -/
theorem resolve_empty_context_default (m : ServiceManifest) (ctx : RequestContext)
    (hua : ctx.UserAgent = "") (hc : ctx.Country = "") :
    matchRequestContext m ctx = Except.ok m.DefaultResponse := by
  have hls : localeStep m ctx = Except.ok m.DefaultResponse := by
    unfold localeStep
    rw [hc]
    simp
  unfold matchRequestContext
  rw [hls, hua]
  simp

/-- C5 witness: the empty context resolves to the default document. -/
theorem resolve_empty_context_default_witness :
    matchRequestContext defaultManifest emptyCtx = Except.ok defaultManifest.DefaultResponse :=
  resolve_empty_context_default defaultManifest emptyCtx rfl rfl

/-- C6: when both a locale case and an identity case apply, resolution is the
default response merged with the country override FIRST and the user-agent
override SECOND, for every rule set and context — the fixed precedence of the
code, not configurable. -/
theorem locale_applied_before_identity (m : ServiceManifest) (ctx : RequestContext)
    (cv : Json) (kv : String × Json)
    (hc : ctx.Country ≠ "")
    (hcv : lookupS ctx.Country m.CountryCases = some cv)
    (hua : ctx.UserAgent ≠ "")
    (hfind : m.UserAgentCases.find? (fun e => goContains ctx.UserAgent e.1) = some kv) :
    matchRequestContext m ctx
      = (mergeResponses m.DefaultResponse cv).bind (fun r => mergeResponses r kv.2) := by
  have hls : localeStep m ctx = mergeResponses m.DefaultResponse cv := by
    unfold localeStep
    rw [if_pos hc, hcv]
  unfold matchRequestContext
  rw [hls]
  cases hm : mergeResponses m.DefaultResponse cv with
  | error e => rfl
  | ok r =>
    dsimp only
    rw [if_pos hua]
    refine (scanUACases_eq_find? r ctx.UserAgent m.UserAgentCases).trans ?_
    rw [hfind]
    rfl

/-- C6 witness: default, locale override and identity override all write key
`a` (0, 1 and 2 respectively); the result carries the identity override's
value 2 on top of the locale override's 1, so locale was merged first. -/
theorem locale_applied_before_identity_witness :
    matchRequestContext ordManifest ordCtx
      = (mergeResponses ordManifest.DefaultResponse (Json.obj [("a", Json.num 1)])).bind
          (fun r => mergeResponses r (Json.obj [("a", Json.num 2)]))
    ∧ matchRequestContext ordManifest ordCtx = Except.ok (Json.obj [("a", Json.num 2)]) :=
  ⟨locale_applied_before_identity ordManifest ordCtx (Json.obj [("a", Json.num 1)])
      ("bot", Json.obj [("a", Json.num 2)]) (by decide) rfl (by decide) rfl,
   rfl⟩

/-- C7: loading a service that is neither cached nor backed by a record
returns the synthesized default rule set (non-empty default document, empty
override maps) and leaves the cache map unchanged; consequently a later
backing-store write at that path is observed by a subsequent load. -/
theorem load_missing_record_not_cached (mm : ManifestManager) (disk : Disk)
    (serviceURL : String)
    (hcache : lookupS serviceURL mm.manifests = none)
    (hdisk : lookupS (filepathJoin mm.basePath (sanitizeFilename serviceURL ++ ".json")) disk
        = none) :
    LoadManifest mm disk serviceURL = (Except.ok defaultManifest, mm)
    ∧ defaultManifest.UserAgentCases = []
    ∧ defaultManifest.CountryCases = []
    ∧ defaultManifest.DefaultResponse ≠ Json.obj []
    ∧ ∀ manifest : ServiceManifest,
        (LoadManifest mm
            ((filepathJoin mm.basePath (sanitizeFilename serviceURL ++ ".json"),
              Except.ok manifest) :: disk) serviceURL).1
          = Except.ok manifest := by
  refine ⟨?_, rfl, rfl, ?_, ?_⟩
  · unfold LoadManifest
    rw [hcache, hdisk]
  · simp [defaultManifest]
  · intro manifest
    unfold LoadManifest
    rw [hcache]
    simp [lookupS]

/-- C7 witness: a fresh store and empty disk synthesize the default for
`"svc"` without touching the cache. -/
theorem load_missing_record_not_cached_witness :
    LoadManifest ⟨[], "base"⟩ [] "svc" = (Except.ok defaultManifest, ⟨[], "base"⟩) :=
  (load_missing_record_not_cached ⟨[], "base"⟩ [] "svc" rfl rfl).1

/-- C8: when the persistence write fails, `UpdateManifest` surfaces the error
and leaves the whole store — in particular the cached entry for the service —
and the disk unchanged: the cache is mutated only after the write succeeds. -/
theorem update_write_failure_leaves_cache (mm : ManifestManager) (disk : Disk)
    (serviceURL : String) (manifest : ServiceManifest) :
    UpdateManifest mm disk false serviceURL manifest = (Except.error "write error", mm, disk)
    ∧ (UpdateManifest mm disk false serviceURL manifest).2.1.manifests = mm.manifests
    ∧ lookupS serviceURL (UpdateManifest mm disk false serviceURL manifest).2.1.manifests
        = lookupS serviceURL mm.manifests :=
  ⟨rfl, rfl, rfl⟩

/-- C9: when the negotiated type is not `application/json` and no configured
template matches it, the engine successfully returns the resolved document's
plain-text stringification labelled `text/plain`, for any render oracle. -/
theorem fallback_plain_text (manifest : ServiceManifest) (ctx : RequestContext)
    (render : ResponseTemplate → Json → Except String String) (rawResponse : Json)
    (hty : determineResponseType ctx.AcceptTypes ≠ "application/json")
    (htmpl : ∀ tmpl ∈ manifest.Templates,
        tmpl.ContentType ≠ determineResponseType ctx.AcceptTypes)
    (hraw : matchRequestContext manifest ctx = Except.ok rawResponse) :
    respondWith manifest ctx render
      = Except.ok (ResponseBody.text rawResponse.serialize, "text/plain") := by
  have hfind : manifest.Templates.find?
      (fun tmpl => tmpl.ContentType == determineResponseType ctx.AcceptTypes) = none := by
    rw [List.find?_eq_none]
    intro t ht
    simpa using htmpl t ht
  unfold respondWith
  rw [hraw]
  dsimp only
  rw [if_neg hty, hfind]

/-- C9 witness: negotiated `text/html` against a rule set with no templates
returns the stringified document as `text/plain`, successfully. -/
theorem fallback_plain_text_witness :
    respondWith plainManifest htmlCtx noRender
      = Except.ok (ResponseBody.text (Json.serialize (Json.obj [("a", Json.num 1)])),
          "text/plain") :=
  fallback_plain_text plainManifest htmlCtx noRender (Json.obj [("a", Json.num 1)])
    (by decide) (by intro t ht; simp [plainManifest] at ht) rfl

/-- C10: two distinct service names with the same sanitized filename share one
backing record but distinct cache entries: after load(s1) caches `rs`,
update(s2, r) rewrites the shared record, yet the cache still maps s1 to `rs`,
so a subsequent load(s1) returns the old `rs`, not `r`. -/
theorem cache_keyed_by_original_name (mm : ManifestManager) (disk : Disk)
    (s1 s2 : String) (rs r : ServiceManifest)
    (hsan : sanitizeFilename s1 = sanitizeFilename s2)
    (hne : s1 ≠ s2) (hdiff : rs ≠ r)
    (hcache : lookupS s1 mm.manifests = none)
    (hdisk : lookupS (filepathJoin mm.basePath (sanitizeFilename s1 ++ ".json")) disk
        = some (Except.ok rs)) :
    (LoadManifest mm disk s1).1 = Except.ok rs
    ∧ lookupS (filepathJoin mm.basePath (sanitizeFilename s1 ++ ".json"))
        (UpdateManifest (LoadManifest mm disk s1).2 disk true s2 r).2.2
      = some (Except.ok r)
    ∧ lookupS s1 (UpdateManifest (LoadManifest mm disk s1).2 disk true s2 r).2.1.manifests
      = some rs
    ∧ (LoadManifest (UpdateManifest (LoadManifest mm disk s1).2 disk true s2 r).2.1
          (UpdateManifest (LoadManifest mm disk s1).2 disk true s2 r).2.2 s1).1
      = Except.ok rs
    ∧ Except.ok rs ≠ (Except.ok r : Except String ServiceManifest) := by
  have hload : LoadManifest mm disk s1
      = (Except.ok rs, { mm with manifests := (s1, rs) :: mm.manifests }) := by
    unfold LoadManifest
    rw [hcache, hdisk]
  have hupd : UpdateManifest (LoadManifest mm disk s1).2 disk true s2 r
      = (Except.ok (),
         { mm with manifests := (s2, r) :: (s1, rs) :: mm.manifests },
         (filepathJoin mm.basePath (sanitizeFilename s2 ++ ".json"), Except.ok r) :: disk) := by
    rw [hload]
    rfl
  have h12 : ¬ s1 = s2 := hne
  refine ⟨by rw [hload], ?_, ?_, ?_, by simp [hdiff]⟩
  · rw [hupd]
    dsimp only
    rw [hsan]
    simp [lookupS]
  · rw [hupd]
    dsimp only
    simp [lookupS, h12]
  · rw [hupd]
    dsimp only
    unfold LoadManifest
    simp [lookupS, h12]

/-- C10 witness: `"http://x"` and `"https://x"` both sanitize to `"x"`; after
loading the first and updating through the second, loading the first again
still returns the originally cached rule set. -/
theorem cache_keyed_by_original_name_witness :
    (LoadManifest
        (UpdateManifest (LoadManifest ⟨[], "base"⟩ exDisk "http://x").2 exDisk true
          "https://x" rEx).2.1
        (UpdateManifest (LoadManifest ⟨[], "base"⟩ exDisk "http://x").2 exDisk true
          "https://x" rEx).2.2
        "http://x").1 = Except.ok rsEx :=
  (cache_keyed_by_original_name ⟨[], "base"⟩ exDisk "http://x" "https://x" rsEx rEx
    rfl (by decide) (by simp [rsEx, rEx, defaultManifest]) rfl rfl).2.2.2.1

end Usernet
